import Mathlib

/-!
Verification of the dataset-creation notebook
(`caffe2/python/tutorials/create_your_own_dataset.ipynb`).

The notebook converts the Iris dataset into key-value records (a
`TensorProtos` container per row, holding a float32 feature vector and an
integer label), writes them into an embedded key-value store via
`write_db`, and reads fixed-size batches back through a two-operator net
(`CreateDB`, `TensorProtosDBInput`).

The serialization container, the store engine and the batching operator
are implemented by the caffe2 runtime, outside the provided source file;
where a claim is decided by that missing code, the corresponding
definition is modelled from the spec (its doc comment says so).  The code
that is present — the label converter, the shuffle/split, and `write_db`
with its key generation — is embedded directly from the notebook.

Float32 feature values are represented by their 32-bit patterns (one
natural number below `2 ^ 32` per value); the encoder stores the raw
bits, so bit-pattern identity is exactly "no precision loss".
-/

namespace Caffe2Dataset

/-- Error taxonomy of the spec (section 7). -/
inductive DatasetError where
  | EncodingError
  | StoreOpenError
  | StoreWriteError
  | DecodingError
  | EmptyStoreError
deriving Repr, DecidableEq

/-- Little-endian fixed-width byte encoding of a natural number (`w` bytes). -/
def natLE : Nat → Nat → List Nat
  | 0, _ => []
  | w + 1, n => n % 256 :: natLE w (n / 256)

/-- Decode a little-endian byte list back to a natural number. -/
def leNat (bs : List Nat) : Nat := bs.foldr (fun b acc => b + 256 * acc) 0

/-- Two's-complement 8-byte little-endian encoding of an integer (int64). -/
def intLE8 (z : Int) : List Nat := natLE 8 (z.emod (2 ^ 64)).toNat

/-- Decode 8 little-endian bytes as a two's-complement int64. -/
def leInt8 (bs : List Nat) : Int :=
  let n := leNat bs
  if n < 2 ^ 63 then (n : Int) else (n : Int) - 2 ^ 64

/-- Element type tag of a float32 tensor.  Modelled from the spec: the
record is self-describing, each array carries "an element type tag"
(section 4.1); the concrete enum values live in the caffe2 proto
definitions, outside the provided source. -/
def tagFloat32 : Nat := 1

/-- Element type tag of an int64 tensor (the label's type; see `tagFloat32`). -/
def tagInt64 : Nat := 10

/-- One in-memory row: a declared 1-D shape, the feature values (float32
bit patterns) and the integer label. -/
structure Row where
  shape : Nat
  feature : List Nat
  label : Int
deriving Repr, DecidableEq, Inhabited

/-- Modelled from the spec (section 4.1): the record byte string holds, in
order, the feature array's shape (4 bytes), its element type tag and its
raw values (4 bytes per float32), then the label's type tag and raw value
(8 bytes of int64).  The caffe2 `TensorProtos` codec that realizes this
container is outside the provided source. -/
def encode (feature : List Nat) (label : Int) : List Nat :=
  natLE 4 feature.length ++
    (tagFloat32 :: ((feature.map (natLE 4)).flatten ++ (tagInt64 :: intLE8 label)))

/-- Decode `k` consecutive 4-byte little-endian values. -/
def decVals : Nat → List Nat → List Nat
  | 0, _ => []
  | k + 1, bs => leNat (bs.take 4) :: decVals k (bs.drop 4)

/-- Consume one expected tag byte from the front of the input. -/
def readTag (t : Nat) (bs : List Nat) : Option (List Nat) :=
  if bs.take 1 = [t] then some (bs.drop 1) else none

/-- Modelled from the spec (section 4.1): the inverse of `encode`; parses
the self-describing record and fails (`none`) on any malformed input. -/
def decode (bs : List Nat) : Option (List Nat × Int) := do
  let n := leNat (bs.take 4)
  let r1 ← if 4 ≤ bs.length then some (bs.drop 4) else none
  let r2 ← readTag tagFloat32 r1
  let fb ← if 4 * n ≤ r2.length then some (r2.take (4 * n)) else none
  let r3 ← readTag tagInt64 (r2.drop (4 * n))
  if r3.length = 8 then some (decVals n fb, leInt8 r3) else none

/-- Modelled from the spec (section 4.1): the encoder's defensive check —
`EncodingError` when the declared shape disagrees with the value count. -/
def encodeRecord (r : Row) : Except DatasetError (List Nat) :=
  if r.feature.length = r.shape then .ok (encode r.feature r.label)
  else .error .EncodingError

/-- Embedding of Python's `str.format`: scans the template, substitutes
each brace-delimited replacement field by the next argument (decimal) and
copies every other character — in particular `%`-style placeholders —
verbatim.  The fuel is the template length (each step consumes at least
one character). -/
def pyFormatAux : Nat → List Char → List Nat → List Char
  | 0, _, _ => []
  | _, [], _ => []
  | fuel + 1, c :: cs, args =>
    if c = Char.ofNat 123 then
      Nat.toDigits 10 (args.headD 0) ++
        pyFormatAux fuel ((cs.dropWhile (fun d => d ≠ Char.ofNat 125)).drop 1) (args.drop 1)
    else c :: pyFormatAux fuel cs args

/-- Python `template.format(args...)` (see `pyFormatAux`). -/
def pyFormat (s : String) (args : List Nat) : String :=
  ⟨pyFormatAux s.data.length s.data args⟩

/-- Embedding of the notebook's key generation: row `i` is put under the
key `'train_%03d'.format(i)` (source cell `write_db`). -/
def write_db_key (i : Nat) : String := pyFormat "train_%03d" [i]

/-- Embedding of the notebook's `write_db` put sequence: one
`(key, serialized record)` pair per row, in loop order. -/
def write_db (rows : List Row) : List (String × List Nat) :=
  (List.range rows.length).map
    (fun i => (write_db_key i, (encodeRecord (rows.getD i default)).toOption.getD []))

/-- Modelled from the spec (section 4.2): the key generated by
`write_dataset` for row `i` — implementation-defined, unique within a call. -/
def write_key (i : Nat) : String := "row_" ++ toString i

/-- Observable outcome of a `write_dataset` call: the persisted
key-value pairs, whether the transaction and the store handle were
released, and the result. -/
structure WriteOutcome where
  persisted : List (String × List Nat)
  txnReleased : Bool
  dbReleased : Bool
  result : Except DatasetError Unit
deriving Repr

/-- Modelled from the spec (section 4.2): the write loop puts one encoded
record per row under a fresh key; on an encoding failure the transaction
and the store handle are released before the error propagates, and the
rows already put stay persisted. -/
def writeLoop : List Row → Nat → List (String × List Nat) → WriteOutcome
  | [], _, acc => ⟨acc.reverse, true, true, .ok ()⟩
  | r :: rs, i, acc =>
    match encodeRecord r with
    | .error _ => ⟨acc.reverse, true, true, .error .EncodingError⟩
    | .ok b => writeLoop rs (i + 1) ((write_key i, b) :: acc)

/-- Modelled from the spec (section 4.2): `write_dataset` over a sequence
of rows. -/
def write_dataset (rows : List Row) : WriteOutcome := writeLoop rows 0 []

/-- The key-value pairs `write_dataset` persists for a list of rows,
starting at key index `i`. -/
def expectedPersist : List Row → Nat → List (String × List Nat)
  | [], _ => []
  | r :: rs, i => (write_key i, (encodeRecord r).toOption.getD []) :: expectedPersist rs (i + 1)

/-- Decode every record of a list; `none` as soon as one is malformed. -/
def decodeAll : List (List Nat) → Option (List (List Nat × Int))
  | [] => some []
  | b :: bs =>
    match decode b, decodeAll bs with
    | some r, some rs => some (r :: rs)
    | _, _ => none

/-- Modelled from the spec (section 4.3): pull `bs` records from the
iteration order starting at the cursor position, wrapping to the beginning
past the end; `EmptyStoreError` on a store with zero records,
`DecodingError` (and no partial batch) on a malformed record.  Returns the
decoded rows and the advanced cursor position. -/
def nextBatchRows (store : List (List Nat)) (pos bs : Nat) :
    Except DatasetError (List (List Nat × Int) × Nat) :=
  if store.length = 0 then .error .EmptyStoreError
  else
    match decodeAll ((List.range bs).map (fun j => store.getD ((pos + j) % store.length) [])) with
    | none => .error .DecodingError
    | some rows => .ok (rows, (pos + bs) % store.length)

/-- Modelled from the spec (section 4.3): `next_batch` returns the batch's
feature matrix and label vector together with the new cursor position. -/
def next_batch (store : List (List Nat)) (pos bs : Nat) :
    Except DatasetError ((List (List Nat) × List Int) × Nat) :=
  match nextBatchRows store pos bs with
  | .error e => .error e
  | .ok (rows, p) => .ok ((rows.map Prod.fst, rows.map Prod.snd), p)

/-- Cursor position after one `next_batch` call (unchanged on error). -/
def stepPos (store : List (List Nat)) (bs pos : Nat) : Nat :=
  match next_batch store pos bs with
  | .ok (_, p) => p
  | .error _ => pos

/-- Cursor position after `k` successive `next_batch` calls from position 0. -/
def posAfter (store : List (List Nat)) (bs : Nat) : Nat → Nat
  | 0 => 0
  | k + 1 => stepPos store bs (posAfter store bs k)

/-- The `k`-th batch of the repeated-`next_batch` sequence. -/
def kthBatch (store : List (List Nat)) (bs k : Nat) :
    Except DatasetError ((List (List Nat) × List Int) × Nat) :=
  next_batch store (posAfter store bs k) bs

/-- A 5-record store: record `i` holds feature `[i]` and label `i`. -/
def c4store : List (List Nat) := (List.range 5).map (fun i => encode [i] (i : Int))

/-- Run `k` successive `next_batch` calls and concatenate the decoded rows. -/
def runBatches (store : List (List Nat)) (bs : Nat) :
    Nat → Nat → Except DatasetError (List (List Nat × Int))
  | _, 0 => .ok []
  | pos, k + 1 =>
    match nextBatchRows store pos bs with
    | .error e => .error e
    | .ok (rows, p) =>
      match runBatches store bs p k with
      | .error e => .error e
      | .ok more => .ok (rows ++ more)

/-- Store-file layout used by `open_reader`: a 4-byte record count, then
each record as a 4-byte length followed by its bytes. -/
def parseRecords : Nat → List Nat → Option (List (List Nat))
  | 0, bs => if bs = [] then some [] else none
  | k + 1, bs =>
    if 4 ≤ bs.length then
      match parseRecords k ((bs.drop 4).drop (leNat (bs.take 4))) with
      | some rs =>
        if leNat (bs.take 4) ≤ (bs.drop 4).length then
          some ((bs.drop 4).take (leNat (bs.take 4)) :: rs)
        else none
      | none => none
    else none

/-- Parse a whole store file (see `parseRecords`); `none` when the bytes
are not a valid store of this format. -/
def parseStore (bs : List Nat) : Option (List (List Nat)) :=
  if 4 ≤ bs.length then parseRecords (leNat (bs.take 4)) (bs.drop 4) else none

/-- Modelled from the spec (section 3): a reader cursor — the store's
records in iteration order and a position. -/
structure BatchCursor where
  records : List (List Nat)
  pos : Nat
deriving Repr, DecidableEq

/-- Modelled from the spec (section 4.3): `open_reader` opens the store at
`path` in the filesystem `fs`; `StoreOpenError` when the path does not
exist or its bytes are not a valid store of this format. -/
def open_reader (fs : String → Option (List Nat)) (path : String) :
    Except DatasetError BatchCursor :=
  match fs path with
  | none => .error .StoreOpenError
  | some bytes =>
    match parseStore bytes with
    | none => .error .StoreOpenError
    | some recs => .ok ⟨recs, 0⟩

/-- The notebook's label dictionary, in insertion order (source cell 3). -/
def label_dict : List (String × Nat) :=
  [("Iris-setosa", 0), ("Iris-versicolor", 1), ("Iris-virginica", 2)]

/-- Embedding of the notebook's `label_converter`: a Python dict lookup;
`none` stands for the `KeyError` a missing key raises. -/
def label_converter (s : String) : Option Nat :=
  (label_dict.find? (fun kv => kv.1 = s)).map Prod.snd

/-- Embedding of the notebook's fancy indexing `xs[random_index]`: pick
the elements of `xs` at the positions listed in `perm`. -/
def applyIndex {α : Type} [Inhabited α] (perm : List Nat) (xs : List α) : List α :=
  perm.map (fun i => xs.getD i default)

instance {ε α : Type} [DecidableEq ε] [DecidableEq α] : DecidableEq (Except ε α) := fun x y =>
  match x, y with
  | .ok a, .ok b => decidable_of_iff (a = b) (by simp)
  | .error e, .error f => decidable_of_iff (e = f) (by simp)
  | .ok _, .error _ => .isFalse (by simp)
  | .error _, .ok _ => .isFalse (by simp)

/-- One Iris-style row: 4 float features and a label in 0, 1, 2. -/
def irisRow (i : Nat) : Row := ⟨4, [i, i + 1, i + 2, i + 3], ((i % 3 : Nat) : Int)⟩

/-- The 100-row training split of the 150-row scenario of C7. -/
def trainRows : List Row := (List.range 100).map irisRow

/-- The 50-row test split of the 150-row scenario of C7. -/
def testRows : List Row := (List.range 50).map (fun i => irisRow (100 + i))

/-- The training split as (feature, label) pairs. -/
def c7pairs : List (List Nat × Int) := trainRows.map (fun r => (r.feature, r.label))

/-- The record store produced by `write_dataset` on the training split. -/
def trainStore : List (List Nat) := (write_dataset trainRows).persisted.map Prod.snd

/-! ## Byte-level coding lemmas -/

theorem length_natLE (w n : Nat) : (natLE w n).length = w := by
  induction w generalizing n with
  | zero => rfl
  | succ w ih => simp [natLE, ih]

theorem leNat_natLE (w n : Nat) (h : n < 256 ^ w) : leNat (natLE w n) = n := by
  induction w generalizing n with
  | zero =>
    simp only [Nat.pow_zero, Nat.lt_one_iff] at h
    simp [natLE, leNat, h]
  | succ w ih =>
    have hdiv : n / 256 < 256 ^ w := by
      rw [Nat.div_lt_iff_lt_mul (by norm_num)]
      calc n < 256 ^ (w + 1) := h
        _ = 256 ^ w * 256 := by ring
    have := ih (n / 256) hdiv
    simp only [natLE, leNat, List.foldr_cons] at *
    rw [this]
    omega

theorem length_intLE8 (z : Int) : (intLE8 z).length = 8 := by
  simp [intLE8, length_natLE]

theorem leInt8_intLE8 (z : Int) (hlo : -(2 ^ 63) ≤ z) (hhi : z < 2 ^ 63) :
    leInt8 (intLE8 z) = z := by
  have h1 : z.emod (2 ^ 64) < 2 ^ 64 := Int.emod_lt_of_pos z (by positivity)
  have h2 : (0:Int) ≤ z.emod (2 ^ 64) := Int.emod_nonneg z (by positivity)
  have hdvd : ((2:Int) ^ 64) ∣ z - z.emod (2 ^ 64) := Int.dvd_sub_of_emod_eq rfl
  obtain ⟨q, hq⟩ := hdvd
  have hlt : (z.emod (2 ^ 64)).toNat < 256 ^ 8 := by
    have h256 : (256:Nat) ^ 8 = 2 ^ 64 := by norm_num
    rw [h256]
    omega
  simp only [leInt8, intLE8, leNat_natLE _ _ hlt]
  split <;> omega

theorem length_flatten_natLE4 (f : List Nat) :
    (f.map (natLE 4)).flatten.length = 4 * f.length := by
  induction f with
  | nil => simp
  | cons v f ih => simp [ih, length_natLE]; ring

theorem decVals_flatten (f : List Nat) (rest : List Nat)
    (hv : ∀ v ∈ f, v < 2 ^ 32) :
    decVals f.length ((f.map (natLE 4)).flatten ++ rest) = f := by
  induction f with
  | nil => rfl
  | cons v f ih =>
    have hvlt : v < 256 ^ 4 := by
      have := hv v (List.mem_cons_self v f)
      norm_num at this ⊢
      omega
    simp only [List.map_cons, List.flatten_cons, List.length_cons, decVals,
      List.append_assoc]
    rw [List.take_left' (length_natLE 4 v), List.drop_left' (length_natLE 4 v),
      leNat_natLE 4 v hvlt, ih (fun u hu => hv u (List.mem_cons_of_mem v hu))]

theorem readTag_cons (t : Nat) (bs : List Nat) :
    readTag t (t :: bs) = some bs := by
  simp [readTag, List.take_succ_cons]

/-- Record round-trip for a valid row (the engine of C2 and C7). -/
theorem decode_encode (feature : List Nat) (label : Int)
    (hv : ∀ v ∈ feature, v < 2 ^ 32)
    (hlen : feature.length < 2 ^ 32)
    (hlo : -(2 ^ 63) ≤ label) (hhi : label < 2 ^ 63) :
    decode (encode feature label) = some (feature, label) := by
  have hlen4 : (natLE 4 feature.length).length = 4 := length_natLE 4 feature.length
  have hlenpow : feature.length < 256 ^ 4 := by norm_num at hlen ⊢; omega
  have hflat : (feature.map (natLE 4)).flatten.length = 4 * feature.length :=
    length_flatten_natLE4 feature
  have htot : 4 ≤ (encode feature label).length := by
    simp [encode, List.length_append, hlen4]
  have htake : (encode feature label).take 4 = natLE 4 feature.length :=
    List.take_left' hlen4
  have hdrop : (encode feature label).drop 4
      = tagFloat32 :: ((feature.map (natLE 4)).flatten ++ (tagInt64 :: intLE8 label)) :=
    List.drop_left' hlen4
  simp only [decode, htake, hdrop, if_pos htot, leNat_natLE 4 feature.length hlenpow,
    Option.bind_eq_bind, Option.some_bind, readTag_cons]
  rw [List.take_left' hflat, List.drop_left' hflat]
  have hr2 : 4 * feature.length
      ≤ ((feature.map (natLE 4)).flatten ++ (tagInt64 :: intLE8 label)).length := by
    simp [List.length_append, hflat]
  simp only [if_pos hr2, Option.some_bind, readTag_cons,
    length_intLE8, if_pos rfl]
  have hdv : decVals feature.length ((feature.map (natLE 4)).flatten) = feature := by
    have := decVals_flatten feature [] hv
    simpa using this
  simp [hdv, leInt8_intLE8 label hlo hhi]

/-! ## Batch-source lemmas -/

theorem decodeAll_isSome (l : List (List Nat)) (h : ∀ b ∈ l, (decode b).isSome) :
    ∃ rows, decodeAll l = some rows ∧ rows.length = l.length := by
  induction l with
  | nil => exact ⟨[], rfl, rfl⟩
  | cons b bs ih =>
    obtain ⟨rows, hrows, hlen⟩ := ih (fun x hx => h x (List.mem_cons_of_mem _ hx))
    obtain ⟨r, hr⟩ := Option.isSome_iff_exists.mp (h b (List.mem_cons_self _ _))
    exact ⟨r :: rows, by simp [decodeAll, hr, hrows], by simp [hlen]⟩

theorem next_batch_ok (store : List (List Nat)) (pos bs : Nat)
    (hne : store ≠ []) (hdec : ∀ b ∈ store, (decode b).isSome) :
    ∃ fs ls p, next_batch store pos bs = .ok ((fs, ls), p) ∧
      fs.length = bs ∧ ls.length = bs ∧ p = (pos + bs) % store.length := by
  have hlen : store.length ≠ 0 := fun h => hne (List.length_eq_zero.mp h)
  have hmem : ∀ b ∈ (List.range bs).map
      (fun j => store.getD ((pos + j) % store.length) []), (decode b).isSome := by
    intro b hb
    obtain ⟨j, hj, rfl⟩ := List.mem_map.mp hb
    have hidx : (pos + j) % store.length < store.length :=
      Nat.mod_lt _ (Nat.pos_of_ne_zero hlen)
    rw [List.getD_eq_getElem _ _ hidx]
    exact hdec _ (List.getElem_mem hidx)
  obtain ⟨rows, hrows, hrl⟩ := decodeAll_isSome _ hmem
  have hnb : nextBatchRows store pos bs = .ok (rows, (pos + bs) % store.length) := by
    unfold nextBatchRows
    rw [if_neg hlen, hrows]
  refine ⟨rows.map Prod.fst, rows.map Prod.snd, (pos + bs) % store.length, ?_, ?_, ?_, rfl⟩
  · simp [next_batch, hnb]
  · simp [hrl]
  · simp [hrl]

/-! ## Claim theorems -/

/-- C1: the claim asserts the `n` keys `write_db` generates are pairwise
distinct.  The code computes `'train_%03d'.format(i)`; `str.format`
substitutes only brace-delimited fields, so the `%`-style template comes
back unchanged and every row gets the same key — already two rows
collide. -/
theorem c1_write_db_keys_collide :
    (∀ i j : Nat, write_db_key i = write_db_key j) ∧
    (write_db [⟨1, [0], 0⟩, ⟨1, [1], 1⟩]).map Prod.fst = ["train_%03d", "train_%03d"] ∧
    ¬ ((write_db [⟨1, [0], 0⟩, ⟨1, [1], 1⟩]).map Prod.fst).Nodup := by
  refine ⟨fun i j => rfl, by decide, by decide⟩

/-- C2: decoding the bytes produced by the record encoder returns exactly
the original (feature, label) pair — bit patterns and int64 label are
reproduced with no loss. -/
theorem c2_roundtrip (feature : List Nat) (label : Int)
    (hne : feature ≠ [])
    (hv : ∀ v ∈ feature, v < 2 ^ 32)
    (hlen : feature.length < 2 ^ 32)
    (hlo : -(2 ^ 63) ≤ label) (hhi : label < 2 ^ 63) :
    decode (encode feature label) = some (feature, label) :=
  decode_encode feature label hv hlen hlo hhi

theorem c2_roundtrip_witness :
    decode (encode [77, 3212836864] 2) = some ([77, 3212836864], 2) :=
  c2_roundtrip [77, 3212836864] 2 (by decide) (by decide) (by decide) (by decide) (by decide)

/-- C3: on a non-empty store of well-formed records, `next_batch` with any
`batch_size ≥ 1` returns exactly `batch_size` feature rows and label
entries and advances the cursor by `batch_size` positions (wrapping) in
the iteration order. -/
theorem c3_batch_shape (store : List (List Nat)) (pos bs : Nat)
    (hbs : 1 ≤ bs) (hne : store ≠ [])
    (hdec : ∀ b ∈ store, (decode b).isSome) :
    ∃ fs ls p, next_batch store pos bs = .ok ((fs, ls), p) ∧
      fs.length = bs ∧ ls.length = bs ∧ p = (pos + bs) % store.length :=
  next_batch_ok store pos bs hne hdec

theorem c3_batch_shape_witness :
    ∃ fs ls p, next_batch [encode [1] 0] 0 2 = .ok ((fs, ls), p) ∧
      fs.length = 2 ∧ ls.length = 2 ∧ p = (0 + 2) % [encode [1] 0].length :=
  c3_batch_shape [encode [1] 0] 0 2 (by decide) (by decide) (by decide)

/-- C5: `next_batch` on a store with zero records signals
`EmptyStoreError` — it never returns an array at all, partial or empty. -/
theorem c5_empty_store (store : List (List Nat)) (pos bs : Nat)
    (h : store.length = 0) :
    next_batch store pos bs = .error .EmptyStoreError := by
  have hnb : nextBatchRows store pos bs = .error .EmptyStoreError := by
    unfold nextBatchRows
    rw [if_pos h]
  simp [next_batch, hnb]

theorem c5_empty_store_witness :
    next_batch [] 0 1 = .error .EmptyStoreError :=
  c5_empty_store [] 0 1 rfl

/-- C8: `open_reader` on a path that does not exist, or whose contents are
not a valid store of this format, signals `StoreOpenError` rather than
returning a cursor. -/
theorem c8_open_reader_invalid (fs : String → Option (List Nat)) (path : String)
    (h : fs path = none ∨ ∃ bytes, fs path = some bytes ∧ parseStore bytes = none) :
    open_reader fs path = .error .StoreOpenError := by
  rcases h with h | ⟨bytes, hb, hp⟩
  · simp [open_reader, h]
  · simp [open_reader, hb, hp]

theorem c8_open_reader_invalid_witness :
    open_reader (fun _ => none) "iris_train.minidb" = .error .StoreOpenError :=
  c8_open_reader_invalid (fun _ => none) "iris_train.minidb" (Or.inl rfl)

/-- C9: the label enumeration maps exactly Iris-setosa to 0,
Iris-versicolor to 1 and Iris-virginica to 2, in dictionary order, and
every other string fails the lookup (Python `KeyError`, here `none`). -/
theorem c9_label_converter_total :
    label_converter "Iris-setosa" = some 0 ∧
    label_converter "Iris-versicolor" = some 1 ∧
    label_converter "Iris-virginica" = some 2 ∧
    ∀ s : String, s ∉ ["Iris-setosa", "Iris-versicolor", "Iris-virginica"] →
      label_converter s = none := by
  refine ⟨rfl, rfl, rfl, ?_⟩
  intro s hs
  simp only [List.mem_cons, not_or] at hs
  obtain ⟨h1, h2, h3, -⟩ := hs
  have d1 : decide ("Iris-setosa" = s) = false := decide_eq_false (fun h => h1 h.symm)
  have d2 : decide ("Iris-versicolor" = s) = false := decide_eq_false (fun h => h2 h.symm)
  have d3 : decide ("Iris-virginica" = s) = false := decide_eq_false (fun h => h3 h.symm)
  simp [label_converter, label_dict, List.find?, d1, d2, d3]

/-- Every record of the 5-record store decodes. -/
theorem c4store_decodes : ∀ b ∈ c4store, (decode b).isSome := by decide

/-- The cursor position over the 5-record store with batch size 3 is
periodic with period 5. -/
theorem posAfter_c4_period (k : Nat) :
    posAfter c4store 3 (k + 5) = posAfter c4store 3 k := by
  induction k with
  | zero => decide
  | succ k ih =>
    have h : k + 1 + 5 = (k + 5) + 1 := by omega
    rw [h]
    show stepPos c4store 3 (posAfter c4store 3 (k + 5))
      = stepPos c4store 3 (posAfter c4store 3 k)
    rw [ih]

/-- C4: over a 5-record store with batch size 3, the produced row sequence
is cyclic — the first three batches read rows [0,1,2], [3,4,0], [1,2,3],
the whole batch sequence repeats with period 5, and every batch has
exactly 3 rows (never fewer). -/
theorem c4_wraparound_cycle :
    kthBatch c4store 3 0 = .ok (([[0], [1], [2]], ([0, 1, 2] : List Int)), 3) ∧
    kthBatch c4store 3 1 = .ok (([[3], [4], [0]], ([3, 4, 0] : List Int)), 1) ∧
    kthBatch c4store 3 2 = .ok (([[1], [2], [3]], ([1, 2, 3] : List Int)), 4) ∧
    (∀ k, kthBatch c4store 3 (k + 5) = kthBatch c4store 3 k) ∧
    (∀ k, ∃ fs ls p, kthBatch c4store 3 k = .ok ((fs, ls), p) ∧
      fs.length = 3 ∧ ls.length = 3) := by
  refine ⟨by decide, by decide, by decide, ?_, ?_⟩
  · intro k
    unfold kthBatch
    rw [posAfter_c4_period k]
  · intro k
    obtain ⟨fs, ls, p, h1, h2, h3, -⟩ :=
      next_batch_ok c4store (posAfter c4store 3 k) 3 (by decide) c4store_decodes
    exact ⟨fs, ls, p, h1, h2, h3⟩

/-- The write loop on well-formed rows followed by a shape-violating row:
it persists exactly the prefix, releases the transaction and the handle,
and reports `EncodingError`. -/
theorem writeLoop_bad (bad : Row) (rest : List Row)
    (hbad : bad.feature.length ≠ bad.shape) :
    ∀ (good : List Row), (∀ r ∈ good, r.feature.length = r.shape) →
    ∀ i acc, writeLoop (good ++ bad :: rest) i acc
      = ⟨acc.reverse ++ expectedPersist good i, true, true, .error .EncodingError⟩ := by
  intro good
  induction good with
  | nil =>
    intro _ i acc
    have he : encodeRecord bad = .error .EncodingError := by
      unfold encodeRecord
      rw [if_neg hbad]
    simp [writeLoop, he, expectedPersist]
  | cons g gs ih =>
    intro hgood i acc
    have hg : g.feature.length = g.shape := hgood g (List.mem_cons_self _ _)
    have he : encodeRecord g = .ok (encode g.feature g.label) := by
      unfold encodeRecord
      rw [if_pos hg]
    simp only [List.cons_append, writeLoop, he, List.append_eq]
    rw [ih (fun r hr => hgood r (List.mem_cons_of_mem _ hr)) (i + 1)
      ((write_key i, encode g.feature g.label) :: acc)]
    simp [expectedPersist, he, List.reverse_cons, List.append_assoc, Except.toOption]

/-- C6: when row `k` of the input violates its declared shape and the rows
before it are well-formed, `write_dataset` signals `EncodingError`, the
transaction and the store handle are released before the error propagates,
and exactly rows `0..k-1` remain persisted. -/
theorem c6_write_atomicity (good : List Row) (bad : Row) (rest : List Row)
    (hgood : ∀ r ∈ good, r.feature.length = r.shape)
    (hbad : bad.feature.length ≠ bad.shape) :
    (write_dataset (good ++ bad :: rest)).result = .error .EncodingError ∧
    (write_dataset (good ++ bad :: rest)).txnReleased = true ∧
    (write_dataset (good ++ bad :: rest)).dbReleased = true ∧
    (write_dataset (good ++ bad :: rest)).persisted = expectedPersist good 0 := by
  have h := writeLoop_bad bad rest hbad good hgood 0 []
  unfold write_dataset
  rw [h]
  simp

theorem c6_write_atomicity_witness :
    (write_dataset [⟨1, [7], 0⟩, ⟨2, [5], 1⟩]).result = .error .EncodingError ∧
    (write_dataset [⟨1, [7], 0⟩, ⟨2, [5], 1⟩]).txnReleased = true ∧
    (write_dataset [⟨1, [7], 0⟩, ⟨2, [5], 1⟩]).dbReleased = true ∧
    (write_dataset [⟨1, [7], 0⟩, ⟨2, [5], 1⟩]).persisted = expectedPersist [⟨1, [7], 0⟩] 0 :=
  c6_write_atomicity [⟨1, [7], 0⟩] ⟨2, [5], 1⟩ [] (by decide) (by decide)

/-- C7: in the 150-row scenario split 100/50, both splits written with
`write_dataset`, 7 successive `next_batch(16)` calls on the 100-row split
consume 112 rows: the 100 original rows exactly once each, then rows 0..11
again by wraparound. -/
theorem c7_end_to_end :
    (write_dataset testRows).result = .ok () ∧
    runBatches trainStore 16 0 7 = .ok (c7pairs ++ c7pairs.take 12) := by
  constructor <;> decide

theorem zip_take_take {α β : Type} (X : List α) (Y : List β) (n : Nat) :
    (X.take n).zip (Y.take n) = (X.zip Y).take n := by
  induction X generalizing Y n with
  | nil => simp
  | cons x xs ih =>
    cases Y with
    | nil => simp
    | cons y ys =>
      cases n with
      | zero => simp
      | succ n => simp [List.take_succ_cons, List.zip_cons_cons, ih]

theorem zip_drop_drop {α β : Type} (X : List α) (Y : List β) (n : Nat) :
    (X.drop n).zip (Y.drop n) = (X.zip Y).drop n := by
  induction X generalizing Y n with
  | nil => simp
  | cons x xs ih =>
    cases Y with
    | nil => simp
    | cons y ys =>
      cases n with
      | zero => simp
      | succ n => simp [ih]

theorem getD_range_map {α : Type} [Inhabited α] (L : List α) :
    (List.range L.length).map (fun i => L.getD i default) = L := by
  apply List.ext_getElem
  · simp
  · intro n h1 h2
    simp only [List.getElem_map, List.getElem_range]
    exact List.getD_eq_getElem L default h2

/-- C10: the split applies one shared permutation index to features and
labels, so the 100-row train split and 50-row test split consist of
(feature, label) pairs that occurred together in the original data, their
index sets are disjoint, and together they cover all 150 original rows
exactly once (the two splits concatenated are a permutation of the
original pair list). -/
theorem c10_shared_permutation (perm : List Nat)
    (features : List (List Nat)) (labels : List Int)
    (hperm : perm.Perm (List.range 150))
    (hf : features.length = 150) (hl : labels.length = 150) :
    ((((applyIndex perm features).take 100).zip ((applyIndex perm labels).take 100)) ++
        (((applyIndex perm features).drop 100).zip ((applyIndex perm labels).drop 100))).Perm
      (features.zip labels) ∧
    (∀ p ∈ (((applyIndex perm features).take 100).zip ((applyIndex perm labels).take 100)) ++
        (((applyIndex perm features).drop 100).zip ((applyIndex perm labels).drop 100)),
      p ∈ features.zip labels) ∧
    (perm.take 100).Disjoint (perm.drop 100) := by
  have hzl : (features.zip labels).length = 150 := by
    rw [List.length_zip, hf, hl]
    simp
  have hzip : (applyIndex perm features).zip (applyIndex perm labels)
      = applyIndex perm (features.zip labels) := by
    simp only [applyIndex, List.zip_map']
    apply List.map_congr_left
    intro i hi
    have hi150 : i < 150 := by
      have := hperm.mem_iff.mp hi
      simpa [List.mem_range] using this
    rw [List.getD_eq_getElem features _ (by omega), List.getD_eq_getElem labels _ (by omega),
      List.getD_eq_getElem (features.zip labels) _ (by omega)]
    rw [List.getElem_zip]
  have hbig : ((((applyIndex perm features).take 100).zip ((applyIndex perm labels).take 100)) ++
      (((applyIndex perm features).drop 100).zip ((applyIndex perm labels).drop 100)))
      = applyIndex perm (features.zip labels) := by
    rw [zip_take_take, zip_drop_drop, hzip, List.take_append_drop]
  have happ : (applyIndex perm (features.zip labels)).Perm (features.zip labels) := by
    have h1 : (applyIndex perm (features.zip labels)).Perm
        (applyIndex (List.range 150) (features.zip labels)) := hperm.map _
    have h2 : applyIndex (List.range 150) (features.zip labels) = features.zip labels := by
      have h3 := getD_range_map (features.zip labels)
      rw [hzl] at h3
      exact h3
    rwa [h2] at h1
  rw [hbig]
  refine ⟨happ, ?_, ?_⟩
  · intro p hp
    exact happ.mem_iff.mp hp
  · exact List.disjoint_take_drop ((hperm.nodup_iff).mpr (List.nodup_range 150)) (le_refl 100)

set_option maxRecDepth 4000 in
theorem c10_shared_permutation_witness :
    ((List.range 150).reverse.take 100).Disjoint ((List.range 150).reverse.drop 100) :=
  (c10_shared_permutation ((List.range 150).reverse)
    ((List.range 150).map (fun i => ([i] : List Nat)))
    ((List.range 150).map (fun i => (i : Int)))
    ((List.range 150).reverse_perm) (by decide) (by decide)).2.2

end Caffe2Dataset
